import Mathlib

/-!
Verification of the go-minhash MinHash sketch library against its
natural-language specification.  The Go source is shallowly embedded:
`uint64` values are naturals reduced modulo `2 ^ 64` wherever the Go
arithmetic can wrap, slices are lists, hash functions are opaque Lean
functions `List Nat → Nat`, fallible operations (Go panics and returned
errors) are `Option`/pair-with-error results, and `float64` arithmetic
(used only by the cardinality and similarity estimators) is modelled
over `ℝ`/`ℚ` with exact real operations.
-/

namespace Minhash

/-- Byte slices `[]byte` are modelled as lists of naturals. -/
abbrev Bytes := List Nat

/-- HashFunc is Go's `type HashFunc func([]byte) uint64`; the result is
reduced modulo `2 ^ 64` at each use site, mirroring the Go value range. -/
abbrev HashFunc := Bytes → Nat

/-- Modulus of Go's `uint64` arithmetic. -/
def U64 : Nat := 2 ^ 64

/-- Go constant `infinity uint64 = math.MaxUint64`. -/
def infinity : Nat := 2 ^ 64 - 1

/-- Go `emptySetSignature(size int)`: `size` slots of `infinity`. -/
def emptySetSignature (size : Nat) : List Nat := List.replicate size infinity

/-- Modelled from the spec: `defaultSignature`, referenced by
`NewMinWise` in minwise.go but not present in the sources, is described
by the spec as "Signature = k copies of INFINITY". -/
def defaultSignature (size : Nat) : List Nat := List.replicate size infinity

/-- Go `union(s, r []uint64) []uint64` from the estimator file: panics on
length mismatch (`none`), else the elementwise minimum.  The source's
`min(x, y uint64)` (`if x <= y { return x }; return y`) is `Nat.min`. -/
def union (s r : List Nat) : Option (List Nat) :=
  if s.length ≠ r.length then none
  else some (List.zipWith min s r)

/-- Number of indices `i` with `s[i] == r[i]`, the `intersect` counter of
the Go `similarity` loop. -/
def matchCount (s r : List Nat) : Nat :=
  ((s.zip r).filter (fun p => p.1 = p.2)).length

/-- Go `similarity(s, r []uint64) float64` (identical body to
`MinWiseSimilarity`): panics on length mismatch (`none`), else
`float64(intersect) / float64(len(s))`, modelled exactly over `ℚ`.
For the empty signature Go computes `0.0/0.0 = NaN`, which this model
maps to `0/0 = 0`; both values differ from `1`. -/
def similarity (s r : List Nat) : Option ℚ :=
  if s.length ≠ r.length then none
  else some ((matchCount s r : ℚ) / (s.length : ℚ))

/-- Real-valued model of the Go float64 transform
`-math.Log(float64(d) / float64(infinity))` for one included slot. -/
noncomputable def logTerm (v : Nat) : ℝ :=
  -Real.log (((infinity - v : Nat) : ℝ) / ((infinity : Nat) : ℝ))

/-- The running `sum` of Go `cardinality`: slots with `d == 0` or
`d == infinity` (`d := infinity - v`) are skipped by the `continue`. -/
noncomputable def cardSum (sig : List Nat) : ℝ :=
  sig.foldl
    (fun sum v =>
      if infinity - v = 0 ∨ infinity - v = infinity then sum
      else sum + logTerm v)
    0

/-- Go's `int(x)` conversion from `float64` truncates toward zero. -/
noncomputable def goTruncToInt (x : ℝ) : ℤ :=
  if 0 ≤ x then ⌊x⌋ else ⌈x⌉

/-- Go `cardinality(sig []uint64) int`: `card` stays `0` unless
`sum != 0.0`, in which case it is `int(float64(len(sig)) / sum)`. -/
noncomputable def cardinality (sig : List Nat) : ℤ :=
  if cardSum sig ≠ 0 then goTruncToInt ((sig.length : ℝ) / cardSum sig) else 0

/-- Go `UnionCardinality`: `cardinality(union(sig1, sig2))`; the `union`
panic on length mismatch propagates (`none`). -/
noncomputable def UnionCardinality (s r : List Nat) : Option ℤ :=
  (union s r).map cardinality

/-- Go `IsEmpty` loop over a signature: `true` iff no slot is `< infinity`. -/
def IsEmptySig (sig : List Nat) : Bool :=
  sig.all (fun v => !(decide (v < infinity)))

/-- MinHash struct of cardinality.go: running minima plus the two base
hash functions. -/
structure MinHash where
  mins : List Nat
  h1 : HashFunc
  h2 : HashFunc

/-- Go `NewMinHash(h1, h2 HashFunc, size int)`. -/
def NewMinHash (h1 h2 : HashFunc) (size : Nat) : MinHash :=
  { mins := emptySetSignature size, h1 := h1, h2 := h2 }

/-- Go `New(h1, h2 HashFunc, size int)` from cardinality.go.  Its body is
`NewMinHash(spooky.Hash64, farm.Hash64, size)`; the external Spooky and
Farm hash functions are out-of-scope collaborators and appear here as
explicit extra parameters. -/
def New (spookyHash64 farmHash64 : HashFunc) (h1 h2 : HashFunc) (size : Nat) :
    MinHash :=
  NewMinHash spookyHash64 farmHash64 size

/-- Go `NewMinHashFromSignature`: `csig := make(...); copy(csig, sig)`.
In the pure model the copy is contents-equal to the input; the aliasing
consequences are modelled separately with an explicit store below. -/
def NewMinHashFromSignature (h1 h2 : HashFunc) (sig : List Nat) : MinHash :=
  { mins := sig, h1 := h1, h2 := h2 }

/-- Slot-update loop of `MinHash.PushBytes`, starting at index `i`:
`hb := v1 + uint64(i)*v2` with 64-bit wraparound, written only when
`0 < hb && hb < min`. -/
def pushMins (v1 v2 : Nat) : Nat → List Nat → List Nat
  | _, [] => []
  | i, mn :: rest =>
      let hb := (v1 + i * v2) % U64
      (if 0 < hb ∧ hb < mn then hb else mn) :: pushMins v1 v2 (i + 1) rest

/-- Go `(*MinHash).PushBytes`: hashes once with each base function, then
runs the guarded slot-update loop. -/
def MinHash.PushBytes (m : MinHash) (b : Bytes) : MinHash :=
  { m with mins := pushMins (m.h1 b % U64) (m.h2 b % U64) 0 m.mins }

/-- The `for i, v := range m2.Signature()` body shared by `MinHash.Merge`
and `MinWise.Merge`: writes `min` slotwise over the indices of the second
signature.  Returns the resulting slice and whether Go would panic with
an index-out-of-range error (second signature longer than the first). -/
def mergeLoopGo : List Nat → List Nat → List Nat × Bool
  | mins, [] => (mins, false)
  | [], _ :: _ => ([], true)
  | a :: as, v :: vs =>
      let r := mergeLoopGo as vs
      ((if v < a then v else a) :: r.1, r.2)

/-- Go `(*MinHash).Merge`: checks lengths first and returns the
size-mismatch error with the receiver untouched, else runs the loop.
The result pairs the (possibly updated) receiver with the returned
error. -/
def MinHash.Merge (m : MinHash) (sig2 : List Nat) : MinHash × Option String :=
  if m.mins.length ≠ sig2.length then
    (m, some "Cannot merge signatures due to size mismatch.")
  else
    ({ m with mins := (mergeLoopGo m.mins sig2).1 }, none)

/-- MinWise struct of minwise.go. -/
structure MinWise where
  minimums : List Nat
  h1 : HashFunc
  h2 : HashFunc

/-- Go `NewMinWise(h1, h2 HashFunc, size int)`. -/
def NewMinWise (h1 h2 : HashFunc) (size : Nat) : MinWise :=
  { minimums := defaultSignature size, h1 := h1, h2 := h2 }

/-- Go `NewMinWiseFromSignature`: stores the caller's slice directly,
with no copy (contrast `NewMinHashFromSignature`). -/
def NewMinWiseFromSignature (h1 h2 : HashFunc) (sig : List Nat) : MinWise :=
  { minimums := sig, h1 := h1, h2 := h2 }

/-- Slot-update loop of `MinWise.PushBytes`: identical to `pushMins`
except that the Go guard is only `hb < min` — there is no `0 < hb`
check, so a candidate equal to `0` IS written. -/
def minWisePushMins (v1 v2 : Nat) : Nat → List Nat → List Nat
  | _, [] => []
  | i, mn :: rest =>
      let hb := (v1 + i * v2) % U64
      (if hb < mn then hb else mn) :: minWisePushMins v1 v2 (i + 1) rest

/-- Go `(*MinWise).PushBytes`. -/
def MinWise.PushBytes (m : MinWise) (b : Bytes) : MinWise :=
  { m with minimums := minWisePushMins (m.h1 b % U64) (m.h2 b % U64) 0 m.minimums }

/-- Go `(*MinWise).Merge`: runs the slotwise loop with NO length check.
The Bool records whether Go would panic (index out of range). -/
def MinWise.Merge (m m2 : MinWise) : MinWise × Bool :=
  let r := mergeLoopGo m.minimums m2.minimums
  ({ m with minimums := r.1 }, r.2)

/-- Go `mask := uint64(1<<b) - 1` with `uint64` wraparound: `1 << 64`
overflows to `0`, so `b = 64` yields the all-ones mask. -/
def mask (b : Nat) : Nat := (2 ^ b - 1) % U64

/-- Loop of Go `(*MinWise).SignatureBbit` over the slots, carrying the
accumulated output `sig`, the current word `w`, and the free `bits`.
When fewer than `b` bits remain, the word is flushed and the CURRENT
element is dropped (the `else` branch never packs `v`).  After the loop,
a partially filled word (`bits != 64`) is flushed. -/
def signatureBbitGo (b : Nat) : List Nat → List Nat → Nat → Nat → List Nat
  | [], sig, w, bits => if bits ≠ 64 then sig ++ [w] else sig
  | v :: vs, sig, w, bits =>
      if b ≤ bits then
        signatureBbitGo b vs sig (((w * 2 ^ b) % U64) ||| (v &&& mask b)) (bits - b)
      else
        signatureBbitGo b vs (sig ++ [w]) 0 64

/-- Go `(*MinWise).SignatureBbit(b uint) []uint64` applied to a
signature. -/
def SignatureBbit (minimums : List Nat) (b : Nat) : List Nat :=
  signatureBbitGo b minimums [] 0 64

/-- Inner `for bits >= b` loop of Go `SimilarityBbit` on one pair of
words: extract the low `b` bits of each, count, compare, shift right by
`b`.  Go loops forever when `b = 0`; the model exits immediately in that
case and every theorem below assumes `0 < b`. -/
def drain (b bits w1 w2 i c : Nat) : Nat × Nat :=
  if h : 0 < b ∧ b ≤ bits then
    drain b (bits - b) (w1 >>> b) (w2 >>> b)
      (if w1 &&& mask b = w2 &&& mask b then i + 1 else i) (c + 1)
  else (i, c)
termination_by bits
decreasing_by exact Nat.sub_lt (Nat.lt_of_lt_of_le h.1 h.2) h.1

/-- Outer loop of Go `SimilarityBbit` over corresponding word pairs,
accumulating `(intersect, count)`. -/
def simBbitLoop (b : Nat) : List (Nat × Nat) → Nat → Nat → Nat × Nat
  | [], i, c => (i, c)
  | (w1, w2) :: rest, i, c =>
      let r := drain b 64 w1 w2 i c
      simBbitLoop b rest r.1 r.2

/-- Go `SimilarityBbit(sig1, sig2 []uint64, b uint) float64`: panics on
length mismatch (`none`), else `float64(intersect) / float64(count)`
modelled over `ℚ`.  When `count = 0` Go computes `0.0/0.0 = NaN`,
modelled as `0/0 = 0`; both values differ from `1`. -/
def SimilarityBbit (sig1 sig2 : List Nat) (b : Nat) : Option ℚ :=
  if sig1.length ≠ sig2.length then none
  else
    let r := simBbitLoop b (sig1.zip sig2) 0 0
    some ((r.1 : ℚ) / (r.2 : ℚ))

/-- Spec-side companion of `cardinality`, written from the claim's
words: the slots that contribute to the sum are exactly those whose
value is neither `infinity` (`d = 0`) nor `0` (`d = infinity`). -/
def includedSlots (sig : List Nat) : List Nat :=
  sig.filter fun v => !(decide (infinity - v = 0 ∨ infinity - v = infinity))

/-- Spec-side companion of `cardinality`, written from the claim's
words: sum `-ln(d/M)` over the included slots only; return `0` when the
sum is `0`, else `floor(k / sum)` with `k` the FULL signature length. -/
noncomputable def cardinalitySpec (sig : List Nat) : ℤ :=
  if ((includedSlots sig).map logTerm).sum = 0 then 0
  else ⌊(sig.length : ℝ) / ((includedSlots sig).map logTerm).sum⌋

/-- Store of allocated `[]uint64` slices, used to model Go slice
aliasing for the from-signature constructors.  A slice value is an index
into the store. -/
abbrev Store := List (List Nat)

/-- Store-level model of `NewMinHashFromSignature`: allocates a fresh
slice holding a copy of the caller's contents (`make` + `copy`) and
returns its reference. -/
def NewMinHashFromSignatureRef (st : Store) (sig : Nat) : Store × Nat :=
  (st ++ [st.getD sig []], st.length)

/-- Store-level model of `NewMinWiseFromSignature`: `minimums: sig`
stores the caller's slice itself, so the returned reference IS the
caller's reference. -/
def NewMinWiseFromSignatureRef (st : Store) (sig : Nat) : Store × Nat :=
  (st, sig)

/-- Store-level `(*MinHash).PushBytes` acting on the slice at `r`. -/
def MinHashPushBytesRef (st : Store) (r : Nat) (h1 h2 : HashFunc) (b : Bytes) :
    Store :=
  st.set r (pushMins (h1 b % U64) (h2 b % U64) 0 (st.getD r []))

/-- Store-level `(*MinWise).PushBytes` acting on the slice at `r`. -/
def MinWisePushBytesRef (st : Store) (r : Nat) (h1 h2 : HashFunc) (b : Bytes) :
    Store :=
  st.set r (minWisePushMins (h1 b % U64) (h2 b % U64) 0 (st.getD r []))

theorem ite_lt_eq_min (x b : Nat) : (if x < b then x else b) = min b x := by
  rw [Nat.min_def]; split <;> split <;> omega

theorem mergeLoopGo_eq_min (a v : List Nat) (h : v.length ≤ a.length) :
    mergeLoopGo a v = (List.zipWith min a v ++ a.drop v.length, false) := by
  induction v generalizing a with
  | nil => cases a <;> simp [mergeLoopGo]
  | cons x xs ih =>
    cases a with
    | nil => simp at h
    | cons b bs =>
      have h' : xs.length ≤ bs.length := by simpa using h
      simp [mergeLoopGo, ih bs h', ite_lt_eq_min]

theorem mergeLoopGo_panics (a v : List Nat) (h : a.length < v.length) :
    (mergeLoopGo a v).2 = true := by
  induction a generalizing v with
  | nil =>
    cases v with
    | nil => simp at h
    | cons x xs => simp [mergeLoopGo]
  | cons b bs ih =>
    cases v with
    | nil => simp at h
    | cons x xs =>
      simp only [mergeLoopGo]
      exact ih xs (by simpa using h)

theorem zipWith_min_self (a : List Nat) : List.zipWith min a a = a := by
  induction a with
  | nil => rfl
  | cons x xs ih => simp [ih]

theorem zipWith_min_comm (a b : List Nat) :
    List.zipWith min a b = List.zipWith min b a := by
  induction a generalizing b with
  | nil => cases b <;> rfl
  | cons x xs ih =>
    cases b with
    | nil => rfl
    | cons y ys => simp [ih ys, Nat.min_comm]

theorem matchCount_cons (x y : Nat) (xs ys : List Nat) :
    matchCount (x :: xs) (y :: ys)
      = (if x = y then 1 else 0) + matchCount xs ys := by
  by_cases h : x = y <;>
    simp [matchCount, List.filter_cons, h, Nat.add_comm]

theorem matchCount_self (s : List Nat) : matchCount s s = s.length := by
  induction s with
  | nil => rfl
  | cons x xs ih => simp [matchCount_cons, ih, Nat.add_comm]

theorem matchCount_comm (s r : List Nat) : matchCount s r = matchCount r s := by
  induction s generalizing r with
  | nil => cases r <;> rfl
  | cons x xs ih =>
    cases r with
    | nil => rfl
    | cons y ys =>
      simp [matchCount_cons, ih ys, eq_comm (a := x) (b := y)]

theorem minHash_merge_ok (m : MinHash) (s2 : List Nat)
    (hm : m.mins.length = s2.length) :
    m.Merge s2 = ({ m with mins := List.zipWith min m.mins s2 }, none) := by
  rw [MinHash.Merge, if_neg (by simp [hm])]
  rw [mergeLoopGo_eq_min m.mins s2 hm.ge, ← hm, List.drop_length,
    List.append_nil]

/-- C5: for every two sketches with equal-length signatures, a
successful merge sets each slot of the receiver to the minimum of the
two corresponding slots, leaves the hash functions untouched, and
reports no error; `union` likewise returns the slotwise minimum. -/
theorem c5_merge_is_slotwise_min (m : MinHash) (s2 : List Nat)
    (mw mw2 : MinWise) (s r : List Nat)
    (hm : m.mins.length = s2.length)
    (hw : mw.minimums.length = mw2.minimums.length)
    (hu : s.length = r.length) :
    m.Merge s2 = ({ m with mins := List.zipWith min m.mins s2 }, none) ∧
    mw.Merge mw2
      = ({ mw with minimums := List.zipWith min mw.minimums mw2.minimums },
          false) ∧
    union s r = some (List.zipWith min s r) := by
  refine ⟨minHash_merge_ok m s2 hm, ?_, ?_⟩
  · rw [MinWise.Merge,
      mergeLoopGo_eq_min mw.minimums mw2.minimums hw.ge, ← hw,
      List.drop_length, List.append_nil]
  · rw [union, if_neg (by simp [hu])]

/-- Witness for C5 at concrete sketches of length 2. -/
theorem c5_merge_is_slotwise_min_witness :
    MinHash.Merge ⟨[3, 7], fun _ => 0, fun _ => 0⟩ [5, 1]
      = (⟨[3, 1], fun _ => 0, fun _ => 0⟩, none) ∧
    MinWise.Merge ⟨[3, 7], fun _ => 0, fun _ => 0⟩
        ⟨[5, 1], fun _ => 0, fun _ => 0⟩
      = (⟨[3, 1], fun _ => 0, fun _ => 0⟩, false) ∧
    union [3, 7] [5, 1] = some [3, 1] :=
  c5_merge_is_slotwise_min ⟨[3, 7], fun _ => 0, fun _ => 0⟩ [5, 1]
    ⟨[3, 7], fun _ => 0, fun _ => 0⟩ ⟨[5, 1], fun _ => 0, fun _ => 0⟩
    [3, 7] [5, 1] rfl rfl rfl

/-- C8: merge is idempotent and commutative at the signature level. -/
theorem c8_merge_comm_idem (A B : MinHash)
    (h : A.mins.length = B.mins.length) :
    ((A.Merge B.mins).1).mins = ((B.Merge A.mins).1).mins ∧
    ((A.Merge A.mins).1).mins = A.mins := by
  rw [minHash_merge_ok A B.mins h, minHash_merge_ok B A.mins h.symm,
    minHash_merge_ok A A.mins rfl]
  exact ⟨zipWith_min_comm _ _, zipWith_min_self _⟩

/-- Witness for C8 at concrete sketches of length 2. -/
theorem c8_merge_comm_idem_witness :
    ((MinHash.Merge ⟨[3, 7], fun _ => 0, fun _ => 0⟩ [5, 1]).1).mins
      = ((MinHash.Merge ⟨[5, 1], fun _ => 0, fun _ => 0⟩ [3, 7]).1).mins ∧
    ((MinHash.Merge ⟨[3, 7], fun _ => 0, fun _ => 0⟩ [3, 7]).1).mins
      = [3, 7] :=
  c8_merge_comm_idem ⟨[3, 7], fun _ => 0, fun _ => 0⟩
    ⟨[5, 1], fun _ => 0, fun _ => 0⟩ rfl

/-- C9: `similarity(sig, sig) = 1` for every nonempty signature, and
`similarity` is symmetric (also when both calls panic on a length
mismatch). -/
theorem c9_similarity_refl_symm (s r : List Nat) (hs : s ≠ []) :
    similarity s s = some 1 ∧ similarity s r = similarity r s := by
  constructor
  · have hlen : s.length ≠ 0 := by simpa using hs
    rw [similarity, if_neg (by simp), matchCount_self]
    have : (s.length : ℚ) ≠ 0 := by exact_mod_cast hlen
    rw [div_self this]
  · by_cases h : s.length = r.length
    · rw [similarity, similarity, if_neg (by simp [h]), if_neg (by simp [h]),
        matchCount_comm, h]
    · rw [similarity, similarity, if_pos (by simpa using h),
        if_pos (by simpa using Ne.symm h)]

/-- Witness for C9 at concrete signatures. -/
theorem c9_similarity_refl_symm_witness :
    similarity [1, 2] [1, 2] = some 1 ∧
    similarity [1, 2] [3] = similarity [3] [1, 2] :=
  c9_similarity_refl_symm [1, 2] [3] (by decide)

/-- C10: `New` ignores the caller-supplied hash functions entirely and
always builds `NewMinHash(spooky.Hash64, farm.Hash64, size)`. -/
theorem c10_new_ignores_hash_args (sp fa g1 g2 g1' g2' : HashFunc)
    (size : Nat) :
    New sp fa g1 g2 size = NewMinHash sp fa size ∧
    New sp fa g1 g2 size = New sp fa g1' g2' size :=
  ⟨rfl, rfl⟩

/-- C3 (code bug): `MinWise.PushBytes` has no zero guard, so with base
hash functions that always return 0 it writes 0 into every slot: the
signature becomes `[0, 0]`, not all-`INFINITY`, and `IsEmpty` is false —
contradicting the repository's own `TestPush` and spec invariant I2.
`MinHash.PushBytes` (which has the `0 < hb` guard) behaves as claimed. -/
theorem c3_minwise_push_writes_zero :
    (MinWise.PushBytes ⟨[infinity, infinity], fun _ => 0, fun _ => 0⟩
        []).minimums = [0, 0] ∧
    IsEmptySig (MinWise.PushBytes ⟨[infinity, infinity], fun _ => 0,
        fun _ => 0⟩ []).minimums = false ∧
    (MinHash.PushBytes ⟨[infinity, infinity], fun _ => 0, fun _ => 0⟩
        []).mins = [infinity, infinity] := by
  refine ⟨?_, ?_, ?_⟩ <;> decide

/-- C2 (counterexample): `MinWise.Merge` with a strictly shorter second
signature reports no failure at all and silently merges only the
overlapping slot, leaving the rest of the receiver as is. -/
theorem c2_counterexample :
    (MinWise.Merge ⟨[5, 5], fun _ => 0, fun _ => 0⟩
        ⟨[1], fun _ => 0, fun _ => 0⟩).2 = false ∧
    (MinWise.Merge ⟨[5, 5], fun _ => 0, fun _ => 0⟩
        ⟨[1], fun _ => 0, fun _ => 0⟩).1.minimums = [1, 5] :=
  ⟨rfl, rfl⟩

/-- C2 (amended): on unequal lengths `similarity`, `union` and
`UnionCardinality` panic and `MinHash.Merge` returns the size-mismatch
error with the receiver unchanged; `MinWise.Merge`, however, performs no
length check: with a shorter second signature it reports no failure and
merges only the overlapping slots, and with a longer one it panics with
an index error instead of a size-mismatch error. -/
theorem c2_size_mismatch (s r : List Nat) (m : MinHash) (s2 : List Nat)
    (mw mw2 mv mv2 : MinWise)
    (hsr : s.length ≠ r.length) (hm : m.mins.length ≠ s2.length)
    (hw : mw2.minimums.length < mw.minimums.length)
    (hv : mv.minimums.length < mv2.minimums.length) :
    similarity s r = none ∧ union s r = none ∧
    UnionCardinality s r = none ∧
    m.Merge s2 = (m, some "Cannot merge signatures due to size mismatch.") ∧
    (mw.Merge mw2).2 = false ∧
    (mw.Merge mw2).1.minimums
      = List.zipWith min mw.minimums mw2.minimums
          ++ mw.minimums.drop mw2.minimums.length ∧
    (mv.Merge mv2).2 = true := by
  refine ⟨?_, ?_, ?_, ?_, ?_, ?_, ?_⟩
  · rw [similarity, if_pos (by simpa using hsr)]
  · rw [union, if_pos (by simpa using hsr)]
  · rw [UnionCardinality, union, if_pos (by simpa using hsr)]; rfl
  · rw [MinHash.Merge, if_pos (by simpa using hm)]
  · rw [MinWise.Merge]
    simp [mergeLoopGo_eq_min mw.minimums mw2.minimums hw.le]
  · rw [MinWise.Merge]
    simp [mergeLoopGo_eq_min mw.minimums mw2.minimums hw.le]
  · rw [MinWise.Merge]
    simpa using mergeLoopGo_panics mv.minimums mv2.minimums hv

theorem le_sub_iff_succ_le_div (b j : Nat) (hb : 0 < b) (hj : j ≤ 64 / b) :
    b ≤ 64 - j * b ↔ j + 1 ≤ 64 / b := by
  have hjb : j * b ≤ 64 := (Nat.le_div_iff_mul_le hb).mp hj
  rw [Nat.le_sub_iff_add_le hjb, Nat.le_div_iff_mul_le hb, Nat.succ_mul,
    Nat.add_comm]

theorem signatureBbitGo_length (b : Nat) (hb : 0 < b) (hb64 : b ≤ 64)
    (vs : List Nat) :
    ∀ (sig : List Nat) (w j : Nat), j ≤ 64 / b →
      (signatureBbitGo b vs sig w (64 - j * b)).length
        = sig.length + (vs.length + j + 64 / b) / (64 / b + 1) := by
  induction vs with
  | nil =>
    intro sig w j hj
    simp only [signatureBbitGo]
    rcases Nat.eq_zero_or_pos j with hj0 | hjpos
    · subst hj0
      rw [if_neg (by simp), List.length_nil]
      simp [Nat.div_eq_of_lt (Nat.lt_succ_self (64 / b))]
    · have hjb : 1 ≤ j * b := Nat.mul_pos hjpos hb
      rw [if_pos (by omega), List.length_append, List.length_nil,
        List.length_cons, List.length_nil]
      have hdiv : (0 + j + 64 / b) / (64 / b + 1) = 1 := by
        obtain ⟨j', rfl⟩ : ∃ j'', j = j'' + 1 := ⟨j - 1, by omega⟩
        have hj' : j' < 64 / b + 1 := by omega
        rw [Nat.zero_add, show j' + 1 + 64 / b = j' + (64 / b + 1) by omega,
          Nat.add_div_right _ (by omega), Nat.div_eq_of_lt hj']
      rw [hdiv]
  | cons v vs ih =>
    intro sig w j hj
    simp only [signatureBbitGo]
    by_cases hle : b ≤ 64 - j * b
    · rw [if_pos hle]
      have hj1 : j + 1 ≤ 64 / b := (le_sub_iff_succ_le_div b j hb hj).mp hle
      have hbits : 64 - j * b - b = 64 - (j + 1) * b := by
        rw [Nat.sub_sub, Nat.succ_mul]
      rw [hbits, ih sig _ (j + 1) hj1,
        show vs.length + (j + 1) + 64 / b = vs.length + 1 + j + 64 / b
          from by omega,
        List.length_cons]
    · rw [if_neg hle]
      have hj1 : ¬ (j + 1 ≤ 64 / b) :=
        fun hcon => hle ((le_sub_iff_succ_le_div b j hb hj).mpr hcon)
      have hjf : j = 64 / b :=
        le_antisymm hj (Nat.lt_succ_iff.mp (Nat.not_le.mp hj1))
      subst hjf
      have h64 : signatureBbitGo b vs (sig ++ [w]) 0 64
          = signatureBbitGo b vs (sig ++ [w]) 0 (64 - 0 * b) := by
        norm_num
      rw [h64, ih (sig ++ [w]) 0 0 (Nat.zero_le _), List.length_append,
        List.length_cons, List.length_cons, List.length_nil]
      have key : ∀ n q : Nat, (n + 1 + q + q) / (q + 1)
          = (n + 0 + q) / (q + 1) + 1 := by
        intro n q
        rw [show n + 1 + q + q = (n + 0 + q) + (q + 1) by omega,
          Nat.add_div_right _ (by omega)]
      rw [key vs.length (64 / b)]
      ring

theorem signatureBbit_length (sig : List Nat) (b : Nat) (hb : 0 < b)
    (hb64 : b ≤ 64) :
    (SignatureBbit sig b).length = (sig.length + 64 / b) / (64 / b + 1) := by
  have h := signatureBbitGo_length b hb hb64 sig [] 0 0 (Nat.zero_le _)
  simpa using h

/-- C4 (counterexample): packing 17 slots at 4 bits each yields a single
output word, not the claimed `ceil(17*4/64) = 2`: the 17th slot triggers
a flush and is dropped instead of starting the second word. -/
theorem c4_counterexample :
    (SignatureBbit (List.replicate 17 1) 4).length ≠ (17 * 4 + 63) / 64 := by
  decide

/-- C4 (amended): for `1 ≤ b ≤ 64`, `signatureBbit` produces exactly
`ceil(k / (floor(64/b) + 1))` output words — each time a word has fewer
than `b` free bits it is flushed and the element that triggered the
flush is dropped, so every flushed word consumes `floor(64/b) + 1`
elements while holding only `floor(64/b)` fields. -/
theorem c4_signature_bbit_word_count (sig : List Nat) (b : Nat)
    (hb : 0 < b) (hb64 : b ≤ 64) :
    (SignatureBbit sig b).length
      = (sig.length + 64 / b) / (64 / b + 1) :=
  signatureBbit_length sig b hb hb64

/-- Witness for the amended C4: three slots at 4 bits fit one word. -/
theorem c4_signature_bbit_word_count_witness :
    (SignatureBbit [1, 2, 3] 4).length = (3 + 64 / 4) / (64 / 4 + 1) :=
  c4_signature_bbit_word_count [1, 2, 3] 4 (by decide) (by decide)

theorem drain_self (b : Nat) (hb : 0 < b) :
    ∀ bits w i c, drain b bits w w i c = (i + bits / b, c + bits / b) := by
  intro bits
  induction bits using Nat.strong_induction_on with
  | _ bits ih =>
    intro w i c
    rw [drain]
    by_cases hle : b ≤ bits
    · rw [dif_pos ⟨hb, hle⟩, if_pos rfl]
      have hlt : bits - b < bits := Nat.sub_lt (Nat.lt_of_lt_of_le hb hle) hb
      rw [ih _ hlt]
      have hdiv : bits / b = (bits - b) / b + 1 := Nat.div_eq_sub_div hb hle
      rw [hdiv, Prod.mk.injEq]
      constructor <;> ring
    · rw [dif_neg (by tauto), Nat.div_eq_of_lt (Nat.lt_of_not_le hle)]
      simp

theorem simBbitLoop_self (b : Nat) (hb : 0 < b) (l : List Nat) :
    ∀ i c, simBbitLoop b (l.zip l) i c
      = (i + l.length * (64 / b), c + l.length * (64 / b)) := by
  induction l with
  | nil => intro i c; simp [simBbitLoop]
  | cons w ws ih =>
    intro i c
    rw [show (w :: ws).zip (w :: ws) = (w, w) :: ws.zip ws from rfl]
    simp only [simBbitLoop]
    rw [drain_self b hb 64 w i c, ih]
    simp only [List.length_cons, Prod.mk.injEq]
    constructor <;> ring

/-- C7 (counterexample): on the empty signature the round trip divides
`0/0` (`NaN` in Go, `0` in this exact model), so the result is not `1`. -/
theorem c7_counterexample :
    SimilarityBbit (SignatureBbit [] 8) (SignatureBbit [] 8) 8 ≠ some 1 := by
  norm_num [SimilarityBbit, SignatureBbit, signatureBbitGo, simBbitLoop]

/-- C7 (amended): for every NONEMPTY signature `A` and every positive
`b` dividing 64 evenly, the b-bit codec round trip
`similarityBbit(signatureBbit(A,b), signatureBbit(A,b), b)` equals 1. -/
theorem c7_bbit_roundtrip (A : List Nat) (b : Nat) (hb : 0 < b)
    (hdvd : b ∣ 64) (hA : A ≠ []) :
    SimilarityBbit (SignatureBbit A b) (SignatureBbit A b) b = some 1 := by
  have hb64 : b ≤ 64 := Nat.le_of_dvd (by norm_num) hdvd
  have hq : 1 ≤ 64 / b := (Nat.one_le_div_iff hb).mpr hb64
  have hlen : 1 ≤ (SignatureBbit A b).length := by
    rw [signatureBbit_length A b hb hb64]
    have hA1 : 1 ≤ A.length := List.length_pos.mpr hA
    rw [Nat.le_div_iff_mul_le (by omega), Nat.one_mul]
    omega
  rw [SimilarityBbit, if_neg (by simp),
    simBbitLoop_self b hb (SignatureBbit A b) 0 0]
  have hc : (SignatureBbit A b).length * (64 / b) ≠ 0 :=
    Nat.mul_ne_zero (by omega) (by omega)
  have hcQ : (((SignatureBbit A b).length * (64 / b) : Nat) : ℚ) ≠ 0 := by
    exact_mod_cast hc
  simp only [Nat.zero_add]
  rw [div_self hcQ]

/-- Witness for the amended C7 at a concrete two-slot signature. -/
theorem c7_bbit_roundtrip_witness :
    SimilarityBbit (SignatureBbit [1, 2] 8) (SignatureBbit [1, 2] 8) 8
      = some 1 :=
  c7_bbit_roundtrip [1, 2] 8 (by decide) (by decide) (by decide)

theorem includedSlots_cons (v : Nat) (vs : List Nat) :
    includedSlots (v :: vs)
      = if infinity - v = 0 ∨ infinity - v = infinity then includedSlots vs
        else v :: includedSlots vs := by
  rw [includedSlots, List.filter_cons]
  by_cases hv : infinity - v = 0 ∨ infinity - v = infinity
  · simp [hv, includedSlots]
  · simp [hv, includedSlots]

theorem cardSum_foldl_eq (sig : List Nat) (s0 : ℝ) :
    sig.foldl
        (fun sum v =>
          if infinity - v = 0 ∨ infinity - v = infinity then sum
          else sum + logTerm v) s0
      = s0 + ((includedSlots sig).map logTerm).sum := by
  induction sig generalizing s0 with
  | nil => simp [includedSlots]
  | cons v vs ih =>
    rw [List.foldl_cons, includedSlots_cons]
    by_cases hv : infinity - v = 0 ∨ infinity - v = infinity
    · rw [if_pos hv, if_pos hv, ih]
    · rw [if_neg hv, if_neg hv, List.map_cons, List.sum_cons, ih]
      ring

theorem logTerm_pos (v : Nat) (h0 : infinity - v ≠ 0)
    (hM : infinity - v ≠ infinity) : 0 < logTerm v := by
  have hd1 : 1 ≤ infinity - v := Nat.one_le_iff_ne_zero.mpr h0
  have hdlt : infinity - v < infinity := lt_of_le_of_ne (Nat.sub_le _ _) hM
  have hMpos : (0 : ℝ) < ((infinity : Nat) : ℝ) := by
    have : (0 : Nat) < infinity := by norm_num [infinity]
    exact_mod_cast this
  have hpos : (0 : ℝ) < ((infinity - v : Nat) : ℝ) / ((infinity : Nat) : ℝ) := by
    apply div_pos _ hMpos
    exact_mod_cast hd1
  have hlt1 : ((infinity - v : Nat) : ℝ) / ((infinity : Nat) : ℝ) < 1 := by
    rw [div_lt_one hMpos]
    exact_mod_cast hdlt
  have hlog := Real.log_neg hpos hlt1
  rw [logTerm]
  linarith

theorem includedSlots_term_pos (sig : List Nat) :
    ∀ x ∈ (includedSlots sig).map logTerm, 0 < x := by
  intro x hx
  obtain ⟨v, hv, rfl⟩ := List.mem_map.mp hx
  have hmem := (List.mem_filter.mp hv).2
  simp only [Bool.not_eq_true', decide_eq_false_iff_not] at hmem
  push_neg at hmem
  exact logTerm_pos v hmem.1 hmem.2

theorem cardSum_eq_includedSum (sig : List Nat) :
    cardSum sig = ((includedSlots sig).map logTerm).sum := by
  rw [cardSum, cardSum_foldl_eq sig 0, zero_add]

theorem cardSum_zero_iff (sig : List Nat) :
    cardSum sig = 0 ↔ includedSlots sig = [] := by
  rw [cardSum_eq_includedSum]
  constructor
  · intro h
    by_contra hne
    have hpos := List.sum_pos _ (includedSlots_term_pos sig)
      (by simpa using hne)
    linarith
  · intro h
    simp [h]

theorem cardSum_pos (sig : List Nat) (h : cardSum sig ≠ 0) :
    0 < cardSum sig := by
  have hne : includedSlots sig ≠ [] := fun hx => h ((cardSum_zero_iff sig).mpr hx)
  rw [cardSum_eq_includedSum]
  exact List.sum_pos _ (includedSlots_term_pos sig) (by simpa using hne)

/-- C1: `cardinality` excludes exactly the slots whose value is
`infinity` (`d = 0`) or `0` (`d = infinity`) from the sum; the sum is
`0` iff every slot is excluded (in particular for the all-`infinity` and
all-zero signatures), in which case the result is `0`, and otherwise the
result is `floor(k / sum)` with `k` the full signature length. -/
theorem c1_cardinality_matches_spec (sig : List Nat) :
    cardinality sig = cardinalitySpec sig ∧
    (cardSum sig = 0 ↔ includedSlots sig = []) := by
  refine ⟨?_, cardSum_zero_iff sig⟩
  by_cases h : cardSum sig = 0
  · rw [cardinality, if_neg (by simpa using h), cardinalitySpec,
      if_pos ((cardSum_eq_includedSum sig) ▸ h)]
  · have hpos := cardSum_pos sig h
    rw [cardinality, if_pos h, goTruncToInt,
      if_pos (div_nonneg (by positivity) hpos.le), cardinalitySpec,
      if_neg ((cardSum_eq_includedSum sig) ▸ h), cardSum_eq_includedSum]

/-- C6 (counterexample): `NewMinWiseFromSignature` stores the caller's
slice without copying, so pushing an element through the constructed
sketch mutates the caller's array. -/
theorem c6_counterexample :
    (MinWisePushBytesRef
        (NewMinWiseFromSignatureRef [[infinity, infinity]] 0).1
        (NewMinWiseFromSignatureRef [[infinity, infinity]] 0).2
        (fun _ => 1) (fun _ => 1) []).getD 0 []
      ≠ [infinity, infinity] := by
  decide

/-- C6 (amended): `NewMinHashFromSignature` performs a defensive copy —
the new sketch's signature is a fresh slice with the same contents,
pushing through the sketch never changes the caller's array, and
overwriting the caller's array never changes the sketch's signature;
`NewMinWiseFromSignature` instead aliases the caller's slice. -/
theorem c6_defensive_copy (st : Store) (sr : Nat) (g1 g2 : HashFunc)
    (b : Bytes) (a : List Nat) (hr : sr < st.length) :
    (NewMinHashFromSignatureRef st sr).2 ≠ sr ∧
    (NewMinHashFromSignatureRef st sr).1.getD
        (NewMinHashFromSignatureRef st sr).2 [] = st.getD sr [] ∧
    (MinHashPushBytesRef (NewMinHashFromSignatureRef st sr).1
        (NewMinHashFromSignatureRef st sr).2 g1 g2 b).getD sr []
      = st.getD sr [] ∧
    ((NewMinHashFromSignatureRef st sr).1.set sr a).getD
        (NewMinHashFromSignatureRef st sr).2 []
      = (NewMinHashFromSignatureRef st sr).1.getD
        (NewMinHashFromSignatureRef st sr).2 [] ∧
    (NewMinWiseFromSignatureRef st sr).2 = sr := by
  have hne : st.length ≠ sr := fun h => absurd hr (by omega)
  refine ⟨hne, ?_, ?_, ?_, rfl⟩
  · show (st ++ [st.getD sr []]).getD st.length [] = st.getD sr []
    rw [List.getD_eq_getElem?_getD, List.getElem?_concat_length]
    rfl
  · show ((st ++ [st.getD sr []]).set st.length _).getD sr [] = st.getD sr []
    rw [List.getD_eq_getElem?_getD, List.getElem?_set_ne hne,
      List.getElem?_append_left hr, List.getD_eq_getElem?_getD]
  · show ((st ++ [st.getD sr []]).set sr a).getD st.length []
        = (st ++ [st.getD sr []]).getD st.length []
    rw [List.getD_eq_getElem?_getD, List.getElem?_set_ne (Ne.symm hne),
      ← List.getD_eq_getElem?_getD]

/-- Witness for the amended C6 at a concrete one-slice store. -/
theorem c6_defensive_copy_witness :
    (NewMinHashFromSignatureRef [[3, 4]] 0).2 ≠ 0 ∧
    (NewMinHashFromSignatureRef [[3, 4]] 0).1.getD
        (NewMinHashFromSignatureRef [[3, 4]] 0).2 [] = [[3, 4]].getD 0 [] ∧
    (MinHashPushBytesRef (NewMinHashFromSignatureRef [[3, 4]] 0).1
        (NewMinHashFromSignatureRef [[3, 4]] 0).2
        (fun _ => 1) (fun _ => 1) []).getD 0 []
      = [[3, 4]].getD 0 [] ∧
    ((NewMinHashFromSignatureRef [[3, 4]] 0).1.set 0 [7]).getD
        (NewMinHashFromSignatureRef [[3, 4]] 0).2 []
      = (NewMinHashFromSignatureRef [[3, 4]] 0).1.getD
        (NewMinHashFromSignatureRef [[3, 4]] 0).2 [] ∧
    (NewMinWiseFromSignatureRef [[3, 4]] 0).2 = 0 :=
  c6_defensive_copy [[3, 4]] 0 (fun _ => 1) (fun _ => 1) [] [7]
    (by decide)

/-- Witness for the amended C2 at concrete inputs. -/
theorem c2_size_mismatch_witness :
    similarity [1] [2, 3] = none ∧ union [1] [2, 3] = none ∧
    UnionCardinality [1] [2, 3] = none ∧
    MinHash.Merge ⟨[9], fun _ => 0, fun _ => 0⟩ [4, 4]
      = (⟨[9], fun _ => 0, fun _ => 0⟩,
          some "Cannot merge signatures due to size mismatch.") ∧
    (MinWise.Merge ⟨[5, 5], fun _ => 0, fun _ => 0⟩
        ⟨[2], fun _ => 0, fun _ => 0⟩).2 = false ∧
    (MinWise.Merge ⟨[5, 5], fun _ => 0, fun _ => 0⟩
        ⟨[2], fun _ => 0, fun _ => 0⟩).1.minimums = [2, 5] ∧
    (MinWise.Merge ⟨[7], fun _ => 0, fun _ => 0⟩
        ⟨[2, 2], fun _ => 0, fun _ => 0⟩).2 = true :=
  c2_size_mismatch [1] [2, 3] ⟨[9], fun _ => 0, fun _ => 0⟩ [4, 4]
    ⟨[5, 5], fun _ => 0, fun _ => 0⟩ ⟨[2], fun _ => 0, fun _ => 0⟩
    ⟨[7], fun _ => 0, fun _ => 0⟩ ⟨[2, 2], fun _ => 0, fun _ => 0⟩
    (by decide) (by decide) (by decide) (by decide)

end Minhash
